import Mathlib

/-!
Shallow embedding of the interactive control loop of
`maps/interactive_rendering.py` (class `InteractiveEnv`).

The embedding follows the source:
* `keys` is the 4-entry bit array `self.keys`, used in the order
  index 0 = LEFT, 1 = RIGHT, 2 = DOWN, 3 = UP.
* `u` is the current action value `self.u`: a small integer enum in
  discrete mode, a pair in continuous mode.  The continuous components
  are differences of key bits, always the exact integers -1, 0 or 1, so
  they are embedded as `Int`; likewise rewards are embedded as `Int`
  (the claims concern accumulation structure, not rounding).
* one iteration of the `while True` loop in `_cycle` is the function
  `tick`, which also returns the ordered list of externally observable
  actions (environment reset, environment step, overlay writes, render)
  performed during that iteration.
* the key handlers `_key_press` and `_key_release` are `key_press` and
  `key_release`; per the concurrency model, key events are delivered
  between loop iterations, never during one.
-/

/-- Key codes delivered by the windowing system: the six recognized codes
and any other (unrecognized) code. -/
inductive Key where
  | left
  | right
  | down
  | up
  | tab
  | r
  | other (code : Nat)
deriving DecidableEq

/-- The key-state bit vector `self.keys`, in the order the code indexes it:
entry 0 = LEFT, 1 = RIGHT, 2 = DOWN, 3 = UP.  Entries are the integers the
code stores (only 0 and 1 are ever assigned). -/
structure Keys where
  left : Nat
  right : Nat
  down : Nat
  up : Nat
deriving DecidableEq

/-- The key bits as the list the numpy array holds. -/
def Keys.toList (k : Keys) : List Nat := [k.left, k.right, k.down, k.up]

/-- `np.sum(self.keys)`. -/
def Keys.total (k : Keys) : Nat := k.left + k.right + k.down + k.up

/-- Helper for `npArgmax`: scan the rest of the list, keeping the index of
the first maximal element seen so far. -/
def npArgmaxGo : List Nat → Nat → Nat → Nat → Nat
  | [], _, best, _ => best
  | x :: xs, i, best, bestVal =>
    if bestVal < x then npArgmaxGo xs (i + 1) i x
    else npArgmaxGo xs (i + 1) best bestVal

/-- `np.argmax`: index of the first maximal element (0 on the empty list,
which never arises here). -/
def npArgmax : List Nat → Nat
  | [] => 0
  | x :: xs => npArgmaxGo xs 1 0 x

/-- `self.u`: discrete enum value (0 = no-op, 1 = left, 2 = right,
3 = down, 4 = up) or continuous pair. -/
inductive ActionValue where
  | disc (v : Nat)
  | cont (x y : Int)
deriving DecidableEq

/-- The continuous action recomputed from the key bits:
`(self.keys[1] - self.keys[0], self.keys[3] - self.keys[2])`. -/
def cont_action (k : Keys) : ActionValue :=
  ActionValue.cont ((k.right : Int) - (k.left : Int)) ((k.up : Int) - (k.down : Int))

/-- The action space's neutral value: `0` in discrete mode, `(0.0, 0.0)`
in continuous mode. -/
def noop (continuous : Bool) : ActionValue :=
  if continuous then ActionValue.cont 0 0 else ActionValue.disc 0

/-- The interactive session state: the fields of `InteractiveEnv` read and
written by the loop and the key handlers (`current_agent_index`,
`n_agents`, `continuous`, `reset`, `keys`, `u`), plus `total_rew`, the
accumulator local to `_cycle` that persists across its iterations, and
`text_idx`, the base overlay slot chosen by `_init_text`. -/
structure IState where
  current_agent_index : Nat
  n_agents : Nat
  continuous : Bool
  reset : Bool
  keys : Keys
  u : ActionValue
  total_rew : List Int
  text_idx : Nat
deriving DecidableEq

/-- `_increment_selected_agent_index`: add one, wrap to 0 on reaching
`n_agents`. -/
def increment_selected_agent_index (s : IState) : IState :=
  let i := s.current_agent_index + 1
  { s with current_agent_index := if i = s.n_agents then 0 else i }

/-- `_key_press`: set the key bit and the local `u` for directional keys,
cycle the agent on TAB, arm the reset flag on R; then store the new action:
recomputed from the key bits in continuous mode, the local `u` in discrete
mode. -/
def key_press (s : IState) (k : Key) : IState :=
  let u0 := s.u
  let s1 : IState :=
    match k with
    | Key.left => { s with keys := { s.keys with left := 1 } }
    | Key.right => { s with keys := { s.keys with right := 1 } }
    | Key.down => { s with keys := { s.keys with down := 1 } }
    | Key.up => { s with keys := { s.keys with up := 1 } }
    | Key.tab => increment_selected_agent_index s
    | Key.r => { s with reset := true }
    | Key.other _ => s
  let u1 : ActionValue :=
    match k with
    | Key.left => ActionValue.disc 1
    | Key.right => ActionValue.disc 2
    | Key.down => ActionValue.disc 3
    | Key.up => ActionValue.disc 4
    | _ => u0
  if s.continuous then { s1 with u := cont_action s1.keys }
  else { s1 with u := u1 }

/-- `_key_release`: clear the key bit for directional keys, clear the reset
flag on R; then store the new action: recomputed from the key bits in
continuous mode; in discrete mode, `np.argmax(self.keys) + 1` when exactly
one bit is set (`np.sum(self.keys) == 1`), else 0. -/
def key_release (s : IState) (k : Key) : IState :=
  let s1 : IState :=
    match k with
    | Key.left => { s with keys := { s.keys with left := 0 } }
    | Key.right => { s with keys := { s.keys with right := 0 } }
    | Key.down => { s with keys := { s.keys with down := 0 } }
    | Key.up => { s with keys := { s.keys with up := 0 } }
    | Key.r => { s with reset := false }
    | _ => s
  if s.continuous then { s1 with u := cont_action s1.keys }
  else if s1.keys.total = 1 then
    { s1 with u := ActionValue.disc (npArgmax s1.keys.toList + 1) }
  else { s1 with u := ActionValue.disc 0 }

/-- One result of `self.env.step(action_list)`: per-agent observations
(numeric vectors, embedded as `List Int`; the 2-decimal rounding applied
before display is a display-only transform, the identity here), per-agent
rewards, and the shared done flag. -/
structure StepResult where
  obs : List (List Int)
  rew : List Int
  done : Bool
deriving DecidableEq

/-- The semantic content written to an overlay slot, one constructor per
formatted message of `_cycle` in slot order: the second observation half,
the first observation half, the reward line, the cumulative-reward line,
the done line, and the selected-agent line (carrying the selected index,
whose display name the environment provides). -/
inductive OverlayLine where
  | obsBack (xs : List Int)
  | obsFront (xs : List Int)
  | rewLine (x : Int)
  | totalRewLine (x : Int)
  | doneLine (d : Bool)
  | selectedLine (i : Nat)
deriving DecidableEq

/-- Externally observable actions of one loop iteration, in program
order. -/
inductive Event where
  | resetEnv
  | stepEnv (batch : List ActionValue)
  | write (slot : Nat) (line : OverlayLine)
  | render
deriving DecidableEq

/-- Whether an event is an overlay write. -/
def Event.isWrite : Event → Bool
  | Event.write _ _ => true
  | _ => false

/-- The per-agent action batch built each tick: the no-op value for every
agent, with the selected agent's entry overwritten by the current action. -/
def action_list (s : IState) : List ActionValue :=
  (List.replicate s.n_agents (noop s.continuous)).set s.current_agent_index s.u

/-- One iteration of the `while True` loop of `_cycle`, given the step
result the environment returns on this iteration.  Returns the new state
and the ordered list of observable events: the flag-guarded environment
reset (with flag clearing and zeroing of `total_rew`), the environment
step on the action batch, the six overlay writes, the render, and the
arming of the reset flag when `done` is reported. -/
def tick (s : IState) (res : StepResult) : IState × List Event :=
  let s0 : IState :=
    if s.reset then
      { s with reset := false, total_rew := List.replicate s.n_agents 0 }
    else s
  let resetEvents : List Event := if s.reset then [Event.resetEnv] else []
  let active := s0.current_agent_index
  let batch := action_list s0
  let aObs := res.obs.getD active []
  let halfLen := aObs.length / 2
  let tr := List.zipWith (· + ·) s0.total_rew res.rew
  let s1 : IState :=
    { s0 with total_rew := tr, reset := if res.done then true else s0.reset }
  (s1,
    resetEvents ++
      [Event.stepEnv batch,
        Event.write s0.text_idx (OverlayLine.obsBack (aObs.drop halfLen)),
        Event.write (s0.text_idx + 1) (OverlayLine.obsFront (aObs.take halfLen)),
        Event.write (s0.text_idx + 2) (OverlayLine.rewLine (res.rew.getD active 0)),
        Event.write (s0.text_idx + 3) (OverlayLine.totalRewLine (tr.getD active 0)),
        Event.write (s0.text_idx + 4) (OverlayLine.doneLine res.done),
        Event.write (s0.text_idx + 5) (OverlayLine.selectedLine active),
        Event.render])

/-- Repeated loop iterations, one per supplied step result. -/
def run_ticks (s : IState) : List StepResult → IState × List (List Event)
  | [] => (s, [])
  | res :: rest =>
    let p := tick s res
    let q := run_ticks p.1 rest
    (q.1, p.2 :: q.2)

/-- Every key bit is 0 or 1 (the code only ever assigns 0 or 1 to them). -/
def KeysBits (k : Keys) : Prop :=
  (k.left = 0 ∨ k.left = 1) ∧ (k.right = 0 ∨ k.right = 1) ∧
    (k.down = 0 ∨ k.down = 1) ∧ (k.up = 0 ∨ k.up = 1)

instance (k : Keys) : Decidable (KeysBits k) := by
  unfold KeysBits
  infer_instance

/-- Reference definition, from the claim's words: a directional key's fixed
enum value (1 = left, 2 = right, 3 = down, 4 = up; 0 for non-directional
keys). -/
def dirEnum : Key → Nat
  | Key.left => 1
  | Key.right => 2
  | Key.down => 3
  | Key.up => 4
  | _ => 0

/-- Reference definition, from the claim's words: the number of directional
keys currently held. -/
def heldCount (k : Keys) : Nat :=
  (if k.left = 1 then 1 else 0) + (if k.right = 1 then 1 else 0) +
    (if k.down = 1 then 1 else 0) + (if k.up = 1 then 1 else 0)

/-- Reference definition, from the claim's words: the discrete action
re-derived on release — the sole held directional key's enum value when
exactly one is held, the no-op 0 when zero or two-or-more are held. -/
def refReleaseAction (k : Keys) : Nat :=
  if heldCount k = 1 then
    if k.left = 1 then 1
    else if k.right = 1 then 2
    else if k.down = 1 then 3
    else 4
  else 0

/-- In continuous mode the stored action always equals the pair recomputed
from the key bits: true of the initial state and re-established by every
handler. -/
def ContInv (s : IState) : Prop :=
  s.continuous = true → s.u = cont_action s.keys

/-- C1: in discrete mode, pressing a directional key sets the action to its
fixed enum value (1 = left, 2 = right, 3 = down, 4 = up) regardless of the
other held keys, and releasing a directional key re-derives the action from
the remaining held keys: the sole remaining held key's enum value when
exactly one remains held, the no-op 0 when zero or two-or-more remain. -/
theorem c1_discrete_encoder (s : IState) (k : Key)
    (hc : s.continuous = false) (hb : KeysBits s.keys) (hk : dirEnum k ≠ 0) :
    (key_press s k).u = ActionValue.disc (dirEnum k) ∧
    (key_release s k).u =
      ActionValue.disc (refReleaseAction (key_release s k).keys) := by
  obtain ⟨hl | hl, hr | hr, hd | hd, hu | hu⟩ := hb <;>
    cases k <;>
      simp_all [key_press, key_release, dirEnum, refReleaseAction, heldCount,
        Keys.total, Keys.toList, npArgmax, npArgmaxGo,
        increment_selected_agent_index]

/-- Witness for C1 at a concrete state: discrete mode, LEFT and UP held,
event key UP. -/
theorem c1_discrete_encoder_witness :
    (⟨0, 2, false, false, ⟨1, 0, 0, 1⟩, ActionValue.disc 4, [0, 0], 0⟩ :
        IState).continuous = false ∧
    KeysBits (⟨1, 0, 0, 1⟩ : Keys) ∧ dirEnum Key.up ≠ 0 ∧
    ((key_press
        (⟨0, 2, false, false, ⟨1, 0, 0, 1⟩, ActionValue.disc 4, [0, 0], 0⟩ :
          IState) Key.up).u = ActionValue.disc (dirEnum Key.up) ∧
      (key_release
        (⟨0, 2, false, false, ⟨1, 0, 0, 1⟩, ActionValue.disc 4, [0, 0], 0⟩ :
          IState) Key.up).u =
        ActionValue.disc (refReleaseAction
          (key_release
            (⟨0, 2, false, false, ⟨1, 0, 0, 1⟩, ActionValue.disc 4, [0, 0], 0⟩ :
              IState) Key.up).keys)) :=
  ⟨rfl, by decide, by decide,
    c1_discrete_encoder _ Key.up rfl (by decide) (by decide)⟩

/-- The code's release-time discrete action (`np.sum == 1` test and
`np.argmax + 1`) agrees with the reference re-derivation from held keys,
for 0/1 key bits. -/
lemma argmax_eq_ref (k : Keys) (hb : KeysBits k) :
    (if k.total = 1 then ActionValue.disc (npArgmax k.toList + 1)
      else ActionValue.disc 0) = ActionValue.disc (refReleaseAction k) := by
  obtain ⟨hl | hl, hr | hr, hd | hd, hu | hu⟩ := hb <;>
    simp_all [Keys.total, Keys.toList, npArgmax, npArgmaxGo, refReleaseAction,
      heldCount]

/-- C2 counterexample: discrete mode, LEFT then UP pressed (action 4);
releasing TAB re-derives the action from the two held keys and sets it
to 0, so a TAB key event does alter the ActionValue. -/
theorem c2_tab_release_changes_action :
    (key_press (key_press
      (⟨0, 2, false, false, ⟨0, 0, 0, 0⟩, ActionValue.disc 0, [0, 0], 0⟩ :
        IState) Key.left) Key.up).u = ActionValue.disc 4 ∧
    (key_release (key_press (key_press
      (⟨0, 2, false, false, ⟨0, 0, 0, 0⟩, ActionValue.disc 0, [0, 0], 0⟩ :
        IState) Key.left) Key.up) Key.tab).u = ActionValue.disc 0 := by
  decide

/-- C2 amended: presses of TAB, R or an unrecognized key leave the
ActionValue unchanged, and an unrecognized press changes no state at all;
releases of TAB or an unrecognized key leave KeyState, AgentIndex and
ResetFlag unchanged; in continuous mode releases of TAB, R or an
unrecognized key also leave the ActionValue unchanged, but in discrete
mode any release (TAB, R or unrecognized included) re-derives the
ActionValue from the held keys, which can change it. -/
theorem c2_ignored_keys (s : IState) (k : Key) (hcont : ContInv s) :
    ((k = Key.tab ∨ k = Key.r ∨ ∃ c, k = Key.other c) →
      (key_press s k).u = s.u) ∧
    ((∃ c, k = Key.other c) → key_press s k = s) ∧
    ((k = Key.tab ∨ ∃ c, k = Key.other c) →
      (key_release s k).keys = s.keys ∧
      (key_release s k).current_agent_index = s.current_agent_index ∧
      (key_release s k).reset = s.reset) ∧
    (s.continuous = true →
      (k = Key.tab ∨ k = Key.r ∨ ∃ c, k = Key.other c) →
      (key_release s k).u = s.u) ∧
    (s.continuous = false → KeysBits s.keys →
      (k = Key.tab ∨ k = Key.r ∨ ∃ c, k = Key.other c) →
      (key_release s k).u = ActionValue.disc (refReleaseAction s.keys)) := by
  obtain ⟨i, n, cont, rst, ks, u, tr, ti⟩ := s
  refine ⟨?_, ?_, ?_, ?_, ?_⟩
  · rintro (rfl | rfl | ⟨c, rfl⟩) <;> cases cont <;>
      simp_all [ContInv, key_press, increment_selected_agent_index]
  · rintro ⟨c, rfl⟩
    cases cont <;> simp_all [ContInv, key_press]
  · rintro (rfl | ⟨c, rfl⟩) <;> cases cont <;>
      by_cases h1 : ks.total = 1 <;> simp_all [key_release]
  · intro h hk
    rcases hk with rfl | rfl | ⟨c, rfl⟩ <;>
      simp_all [ContInv, key_release]
  · intro h hb hk
    have href := argmax_eq_ref ks hb
    rcases hk with rfl | rfl | ⟨c, rfl⟩ <;>
      by_cases h1 : ks.total = 1 <;> simp_all [key_release]

/-- Witness for C2 amended at a concrete continuous-mode state and the
unrecognized key code 99. -/
theorem c2_ignored_keys_witness :
    ContInv (⟨0, 2, true, false, ⟨0, 0, 0, 0⟩, ActionValue.cont 0 0, [0, 0],
      0⟩ : IState) ∧
    key_press (⟨0, 2, true, false, ⟨0, 0, 0, 0⟩, ActionValue.cont 0 0, [0, 0],
        0⟩ : IState) (Key.other 99) =
      (⟨0, 2, true, false, ⟨0, 0, 0, 0⟩, ActionValue.cont 0 0, [0, 0], 0⟩ :
        IState) :=
  ⟨fun _ => rfl,
    (c2_ignored_keys _ (Key.other 99) (fun _ => rfl)).2.1 ⟨99, rfl⟩⟩

/-- Horizontal component of a continuous action (0 for a discrete one). -/
def ActionValue.contX : ActionValue → Int
  | ActionValue.cont x _ => x
  | ActionValue.disc _ => 0

/-- Vertical component of a continuous action (0 for a discrete one). -/
def ActionValue.contY : ActionValue → Int
  | ActionValue.cont _ y => y
  | ActionValue.disc _ => 0

/-- C3: in continuous mode, after every press and every release of any key
the ActionValue equals the pair (right-bit minus left-bit, up-bit minus
down-bit) computed from the full current key state; in particular two
opposite keys held simultaneously cancel that component to 0. -/
theorem c3_continuous_encoder (s : IState) (k : Key)
    (hc : s.continuous = true) :
    (key_press s k).u = cont_action (key_press s k).keys ∧
    (key_release s k).u = cont_action (key_release s k).keys ∧
    (∀ ks : Keys, ks.left = ks.right → (cont_action ks).contX = 0) ∧
    (∀ ks : Keys, ks.down = ks.up → (cont_action ks).contY = 0) := by
  obtain ⟨i, n, cont, rst, ks, u, tr, ti⟩ := s
  simp only [IState.continuous] at hc
  subst hc
  refine ⟨?_, ?_, ?_, ?_⟩
  · cases k <;> simp [key_press, increment_selected_agent_index]
  · cases k <;> simp [key_release]
  · intro ks h
    simp [cont_action, ActionValue.contX, h]
  · intro ks h
    simp [cont_action, ActionValue.contY, h]

/-- Witness for C3 at a concrete continuous-mode state and the LEFT key. -/
theorem c3_continuous_encoder_witness :
    (⟨0, 2, true, false, ⟨0, 1, 0, 0⟩, ActionValue.cont 1 0, [0, 0], 0⟩ :
        IState).continuous = true ∧
    (key_press (⟨0, 2, true, false, ⟨0, 1, 0, 0⟩, ActionValue.cont 1 0,
        [0, 0], 0⟩ : IState) Key.left).u =
      cont_action (key_press (⟨0, 2, true, false, ⟨0, 1, 0, 0⟩,
        ActionValue.cont 1 0, [0, 0], 0⟩ : IState) Key.left).keys :=
  ⟨rfl, (c3_continuous_encoder _ Key.left rfl).1⟩

/-- C4 counterexample: with no key pressed the current action is the no-op
0, so the batch passed to the step is [0, 0] and no entry at all differs
from the no-op value — not exactly one. -/
theorem c4_all_noop_batch :
    (tick (⟨0, 2, false, false, ⟨0, 0, 0, 0⟩, ActionValue.disc 0, [0, 0],
        0⟩ : IState) ⟨[[1, 2], [3, 4]], [0, 0], false⟩).2.head? =
      some (Event.stepEnv [ActionValue.disc 0, ActionValue.disc 0]) ∧
    List.countP (fun a => decide (a ≠ noop false))
      [ActionValue.disc 0, ActionValue.disc 0] = 0 := by
  decide

/-- C4 amended: on every tick the batch passed to the environment step has
the current ActionValue at the selected agent's position and the no-op
value everywhere else, so at most one entry — the selected agent's —
differs from no-op (none does when the current ActionValue is itself
no-op). -/
theorem c4_batch_shape (s : IState) (res : StepResult)
    (hi : s.current_agent_index < s.n_agents) :
    (action_list s).length = s.n_agents ∧
    (action_list s)[s.current_agent_index]? = some s.u ∧
    (∀ j, j < s.n_agents → j ≠ s.current_agent_index →
      (action_list s)[j]? = some (noop s.continuous)) ∧
    (s.reset = false →
      (tick s res).2.head? = some (Event.stepEnv (action_list s))) := by
  refine ⟨by simp [action_list], ?_, ?_, ?_⟩
  · simp [action_list, List.getElem?_set, hi, List.getElem?_replicate]
  · intro j hj hne
    simp [action_list, List.getElem?_set, hne.symm, List.getElem?_replicate,
      hj]
  · intro hr
    simp [tick, hr]

/-- Witness for C4 amended at a concrete state with RIGHT pressed. -/
theorem c4_batch_shape_witness :
    (⟨0, 2, false, false, ⟨0, 1, 0, 0⟩, ActionValue.disc 2, [0, 0], 0⟩ :
        IState).current_agent_index < 2 ∧
    (action_list (⟨0, 2, false, false, ⟨0, 1, 0, 0⟩, ActionValue.disc 2,
        [0, 0], 0⟩ : IState))[0]? = some (ActionValue.disc 2) :=
  ⟨by decide,
    (c4_batch_shape _ ⟨[[1, 2], [3, 4]], [0, 0], false⟩ (by decide)).2.1⟩

/-- C5: when the step on tick T reports done, that tick still performs, in
order, the step, all six overlay writes (including the terminal
observation halves, reward, cumulative reward, the done line reading true,
and the selected agent) and the render, with no environment reset during
tick T; the reset flag is set at the end of tick T, and the environment
reset, the flag clearing and the zeroing of the cumulative rewards happen
at the top of tick T+1. -/
theorem c5_terminal_tick_order (s : IState) (res res2 : StepResult)
    (obsA : List Int) (trT : List Int)
    (hr : s.reset = false) (hd : res.done = true)
    (hobs : obsA = res.obs.getD s.current_agent_index [])
    (htr : trT = List.zipWith (· + ·) s.total_rew res.rew) :
    (tick s res).2 =
      [Event.stepEnv (action_list s),
        Event.write s.text_idx (OverlayLine.obsBack
          (obsA.drop (obsA.length / 2))),
        Event.write (s.text_idx + 1) (OverlayLine.obsFront
          (obsA.take (obsA.length / 2))),
        Event.write (s.text_idx + 2) (OverlayLine.rewLine
          (res.rew.getD s.current_agent_index 0)),
        Event.write (s.text_idx + 3) (OverlayLine.totalRewLine
          (trT.getD s.current_agent_index 0)),
        Event.write (s.text_idx + 4) (OverlayLine.doneLine true),
        Event.write (s.text_idx + 5) (OverlayLine.selectedLine
          s.current_agent_index),
        Event.render] ∧
    Event.resetEnv ∉ (tick s res).2 ∧
    (tick s res).1.reset = true ∧
    (tick (tick s res).1 res2).2.head? = some Event.resetEnv ∧
    (tick (tick s res).1 res2).1.total_rew =
      List.zipWith (· + ·) (List.replicate s.n_agents 0) res2.rew ∧
    (res2.done = false → (tick (tick s res).1 res2).1.reset = false) := by
  subst hobs htr
  refine ⟨by simp [tick, hr, hd], ?_, by simp [tick, hr, hd], ?_, ?_, ?_⟩
  · simp [tick, hr, hd]
  · simp [tick, hr, hd]
  · simp [tick, hr, hd]
  · intro h2
    simp [tick, hr, hd, h2]

/-- Witness for C5 at a concrete terminal tick followed by one more tick. -/
theorem c5_terminal_tick_order_witness :
    (⟨0, 2, false, false, ⟨0, 0, 0, 0⟩, ActionValue.disc 0, [0, 0], 0⟩ :
        IState).reset = false ∧
    (tick (tick (⟨0, 2, false, false, ⟨0, 0, 0, 0⟩, ActionValue.disc 0,
        [0, 0], 0⟩ : IState) ⟨[[1, 2], [3, 4]], [1, 1], true⟩).1
        ⟨[[0, 0], [0, 0]], [2, 2], false⟩).2.head? = some Event.resetEnv :=
  ⟨rfl,
    (c5_terminal_tick_order _ ⟨[[1, 2], [3, 4]], [1, 1], true⟩
      ⟨[[0, 0], [0, 0]], [2, 2], false⟩ _ _ rfl rfl rfl rfl).2.2.2.1⟩

/-- Whether an event is an environment reset. -/
def Event.isReset : Event → Bool
  | Event.resetEnv => true
  | _ => false

/-- C6: pressing R and then releasing it before the next tick's flag check
leaves the reset flag cleared; a tick entered with the flag cleared
performs no environment reset; a tick performs exactly one reset when the
flag is set and none otherwise; and the flag is consumed by the tick —
after it, the flag is set only if this tick's step reported done. -/
theorem c6_reset_debounce (s : IState) (res : StepResult) :
    (key_release (key_press s Key.r) Key.r).reset = false ∧
    (s.reset = false → Event.resetEnv ∉ (tick s res).2) ∧
    List.countP Event.isReset (tick s res).2 = (if s.reset then 1 else 0) ∧
    (tick s res).1.reset = res.done := by
  obtain ⟨i, n, cont, rst, ks, u, tr, ti⟩ := s
  refine ⟨?_, ?_, ?_, ?_⟩
  · cases cont <;> by_cases h1 : ks.total = 1 <;>
      simp [key_press, key_release, h1]
  · intro h
    simp only [IState.reset] at h
    subst h
    simp [tick, Event.isReset]
  · cases rst <;>
      simp [tick, Event.isReset, List.countP_cons]
  · cases hd : res.done <;> cases rst <;> simp [tick, hd]

/-- Witness for C6 at a concrete state with the flag cleared. -/
theorem c6_reset_debounce_witness :
    (key_release (key_press (⟨0, 2, false, false, ⟨0, 0, 0, 0⟩,
        ActionValue.disc 0, [0, 0], 0⟩ : IState) Key.r) Key.r).reset =
      false ∧
    Event.resetEnv ∉ (tick (⟨0, 2, false, false, ⟨0, 0, 0, 0⟩,
        ActionValue.disc 0, [0, 0], 0⟩ : IState)
      ⟨[[1, 2], [3, 4]], [0, 0], false⟩).2 :=
  ⟨(c6_reset_debounce _ ⟨[[1, 2], [3, 4]], [0, 0], false⟩).1,
    (c6_reset_debounce _ ⟨[[1, 2], [3, 4]], [0, 0], false⟩).2.1 rfl⟩

/-- Unfolding one tick of the loop runner. -/
lemma run_ticks_cons (s : IState) (res : StepResult)
    (rest : List StepResult) :
    run_ticks s (res :: rest) =
      ((run_ticks (tick s res).1 rest).1,
        (tick s res).2 :: (run_ticks (tick s res).1 rest).2) := rfl

/-- Pointwise reading of an elementwise-sum fold over equal-length
integer lists. -/
lemma foldl_zipWith_getD (L : List (List Int)) (acc : List Int) (n i : Nat)
    (hacc : acc.length = n) (hL : ∀ l ∈ L, l.length = n) (hi : i < n) :
    (L.foldl (fun a l => List.zipWith (· + ·) a l) acc).getD i 0 =
      acc.getD i 0 + (L.map (fun l => l.getD i 0)).sum := by
  induction L generalizing acc with
  | nil => simp
  | cons hd tl ih =>
    have hhd : hd.length = n := hL hd (by simp)
    have h1 : (List.zipWith (· + ·) acc hd).length = n := by
      simp [hacc, hhd]
    have hia : i < acc.length := by omega
    have hih : i < hd.length := by omega
    rw [List.foldl_cons,
      ih (List.zipWith (· + ·) acc hd) h1 (fun l hl => hL l (by simp [hl]))]
    have h2 : (List.zipWith (· + ·) acc hd).getD i 0 =
        acc.getD i 0 + hd.getD i 0 := by
      simp [List.getD, List.getElem?_zipWith, List.getElem?_eq_getElem,
        hia, hih]
    rw [h2, List.map_cons, List.sum_cons]
    ring

/-- Over ticks entered with the flag cleared and reporting no episode end,
the loop accumulates rewards elementwise and keeps the flag cleared and
the agent count unchanged. -/
lemma run_ticks_no_reset (L : List StepResult) (s : IState)
    (hr : s.reset = false) (hnd : ∀ r ∈ L, r.done = false) :
    (run_ticks s L).1.total_rew =
      L.foldl (fun a r => List.zipWith (· + ·) a r.rew) s.total_rew ∧
    (run_ticks s L).1.reset = false ∧
    (run_ticks s L).1.n_agents = s.n_agents := by
  induction L generalizing s with
  | nil => exact ⟨rfl, hr, rfl⟩
  | cons hd tl ih =>
    have hd_done : hd.done = false := hnd hd (by simp)
    have h1 : (tick s hd).1.reset = false := by
      simp [tick, hr, hd_done]
    have h2 : (tick s hd).1.total_rew =
        List.zipWith (· + ·) s.total_rew hd.rew := by
      simp [tick, hr]
    have h3 : (tick s hd).1.n_agents = s.n_agents := by
      simp [tick, hr]
    obtain ⟨ih1, ih2, ih3⟩ :=
      ih (tick s hd).1 h1 (fun r hrr => hnd r (by simp [hrr]))
    rw [run_ticks_cons]
    exact ⟨by rw [List.foldl_cons, ← h2, ← ih1],
      ih2, by rw [show ((run_ticks (tick s hd).1 tl).1,
        (tick s hd).2 :: (run_ticks (tick s hd).1 tl).2).1.n_agents =
          (run_ticks (tick s hd).1 tl).1.n_agents from rfl, ih3, h3]⟩

/-- C7 counterexample: discrete mode, two agents, agent 0 selected.  Tick 1
rewards are [1, 0], so agent 0's cumulative reward is 1; TAB switches the
selection to agent 1; tick 2 rewards are [5, 2], and agent 0's cumulative
reward becomes 6 — it is NOT unaffected by ticks after the selection
switched away. -/
theorem c7_cumulative_after_switch :
    (tick (⟨0, 2, false, false, ⟨0, 0, 0, 0⟩, ActionValue.disc 0, [0, 0],
        0⟩ : IState) ⟨[[0], [0]], [1, 0], false⟩).1.total_rew = [1, 0] ∧
    (key_press (tick (⟨0, 2, false, false, ⟨0, 0, 0, 0⟩, ActionValue.disc 0,
        [0, 0], 0⟩ : IState)
      ⟨[[0], [0]], [1, 0], false⟩).1 Key.tab).current_agent_index = 1 ∧
    (tick (key_press (tick (⟨0, 2, false, false, ⟨0, 0, 0, 0⟩,
        ActionValue.disc 0, [0, 0], 0⟩ : IState)
      ⟨[[0], [0]], [1, 0], false⟩).1 Key.tab)
      ⟨[[0], [0]], [5, 2], false⟩).1.total_rew = [6, 2] := by
  decide

/-- C7 amended: starting from zeroed cumulative rewards with the flag
cleared, after any run of no-done ticks every agent's cumulative reward —
selected or not — equals the sum of that agent's per-step rewards; and a
tick entered with the flag set first zeroes all cumulative rewards, which
then restart from that tick's rewards.  In particular an agent's
cumulative reward keeps accumulating its per-step rewards after the
selection switches away from it. -/
theorem c7_cumulative_per_agent (s : IState) (L : List StepResult) (i : Nat)
    (hr : s.reset = false) (hnd : ∀ r ∈ L, r.done = false)
    (hlen : ∀ r ∈ L, r.rew.length = s.n_agents)
    (h0 : s.total_rew = List.replicate s.n_agents 0)
    (hi : i < s.n_agents) :
    (run_ticks s L).1.total_rew.getD i 0 =
      (L.map (fun r => r.rew.getD i 0)).sum ∧
    (∀ (s2 : IState) (res : StepResult), s2.reset = true →
      (tick s2 res).1.total_rew =
        List.zipWith (· + ·) (List.replicate s2.n_agents 0) res.rew) := by
  constructor
  · obtain ⟨h1, -, -⟩ := run_ticks_no_reset L s hr hnd
    rw [h1, h0, ← List.foldl_map,
      foldl_zipWith_getD (L.map (fun r => r.rew))
        (List.replicate s.n_agents 0) s.n_agents i (by simp)
        (by simpa using hlen) hi,
      List.map_map]
    simp [List.getD, List.getElem?_replicate, hi]
    rfl
  · intro s2 res h2
    simp [tick, h2]

/-- Witness for C7 amended: two agents, two ticks, agent 0. -/
theorem c7_cumulative_per_agent_witness :
    (run_ticks (⟨0, 2, false, false, ⟨0, 0, 0, 0⟩, ActionValue.disc 0,
        [0, 0], 0⟩ : IState)
      [⟨[[0], [0]], [1, 0], false⟩,
        ⟨[[0], [0]], [5, 2], false⟩]).1.total_rew.getD 0 0 =
      ([⟨[[0], [0]], [1, 0], false⟩,
        (⟨[[0], [0]], [5, 2], false⟩ : StepResult)].map
          (fun r => r.rew.getD 0 0)).sum :=
  (c7_cumulative_per_agent _ _ 0 rfl (by decide) (by decide) rfl
    (by decide)).1

/-- Reference advance operation on selection indices, from the claim's
words: increment by 1, wrapping to 0 at n_agents. -/
def advance (n i : Nat) : Nat := if i + 1 = n then 0 else i + 1

/-- For an in-range index, advancing is addition of 1 modulo n. -/
lemma advance_eq_mod (n i : Nat) (h : i < n) : advance n i = (i + 1) % n := by
  unfold advance
  by_cases h1 : i + 1 = n
  · simp [h1, Nat.mod_self]
  · rw [if_neg h1, Nat.mod_eq_of_lt (by omega)]

/-- Iterating the advance operation adds modulo n. -/
lemma advance_iterate (n : Nat) :
    ∀ (m i : Nat), i < n → (advance n)^[m] i = (i + m) % n := by
  intro m
  induction m with
  | zero =>
    intro i h
    simp [Nat.mod_eq_of_lt h]
  | succ m ih =>
    intro i h
    have hadv := advance_eq_mod n i h
    have hlt : advance n i < n := by
      rw [hadv]
      exact Nat.mod_lt _ (by omega)
    rw [Function.iterate_succ_apply, ih (advance n i) hlt, hadv,
      Nat.mod_add_mod]
    congr 1
    omega

/-- Key releases never change the selected agent index. -/
lemma key_release_idx (s : IState) (k : Key) :
    (key_release s k).current_agent_index = s.current_agent_index := by
  obtain ⟨i, n, cont, rst, ks, u, tr, ti⟩ := s
  cases cont <;> cases k <;> simp [key_release] <;> split <;> rfl

/-- Key presses other than TAB never change the selected agent index. -/
lemma key_press_idx (s : IState) (k : Key) (hk : k ≠ Key.tab) :
    (key_press s k).current_agent_index = s.current_agent_index := by
  obtain ⟨i, n, cont, rst, ks, u, tr, ti⟩ := s
  cases cont <;> cases k <;> simp_all [key_press]

/-- A loop tick (environment reset included) never changes the selected
agent index. -/
lemma tick_idx (s : IState) (res : StepResult) :
    (tick s res).1.current_agent_index = s.current_agent_index := by
  cases hR : s.reset <;> simp [tick, hR]

/-- C8: the selected index stays in range: advancing an in-range index
yields an in-range index, each TAB press advances it by exactly 1 wrapping
to 0 at n_agents, no other key event and no tick (environment resets
included) mutates it, and advancing n_agents times returns it to the
original value. -/
theorem c8_selection (s : IState) (res : StepResult) (k : Key)
    (hi : s.current_agent_index < s.n_agents) (hk : k ≠ Key.tab) :
    (increment_selected_agent_index s).current_agent_index =
      advance s.n_agents s.current_agent_index ∧
    (increment_selected_agent_index s).current_agent_index < s.n_agents ∧
    (key_press s Key.tab).current_agent_index =
      advance s.n_agents s.current_agent_index ∧
    (key_press s k).current_agent_index = s.current_agent_index ∧
    (key_release s k).current_agent_index = s.current_agent_index ∧
    (tick s res).1.current_agent_index = s.current_agent_index ∧
    (advance s.n_agents)^[s.n_agents] s.current_agent_index =
      s.current_agent_index := by
  have hadv : (increment_selected_agent_index s).current_agent_index =
      advance s.n_agents s.current_agent_index := by
    simp [increment_selected_agent_index, advance]
  have htab : (key_press s Key.tab).current_agent_index =
      (increment_selected_agent_index s).current_agent_index := by
    by_cases h : s.continuous <;> simp [key_press, h]
  refine ⟨hadv, ?_, htab.trans hadv, key_press_idx s k hk,
    key_release_idx s k, tick_idx s res, ?_⟩
  · rw [hadv, advance_eq_mod _ _ hi]
    exact Nat.mod_lt _ (by omega)
  · rw [advance_iterate s.n_agents s.n_agents s.current_agent_index hi,
      Nat.add_mod_right, Nat.mod_eq_of_lt hi]

/-- Witness for C8 at a concrete state with 3 agents and index 2. -/
theorem c8_selection_witness :
    (⟨2, 3, false, false, ⟨0, 0, 0, 0⟩, ActionValue.disc 0, [0, 0, 0], 0⟩ :
        IState).current_agent_index < 3 ∧ Key.r ≠ Key.tab ∧
    (key_press (⟨2, 3, false, false, ⟨0, 0, 0, 0⟩, ActionValue.disc 0,
        [0, 0, 0], 0⟩ : IState) Key.tab).current_agent_index = advance 3 2 :=
  ⟨by decide, by decide,
    (c8_selection _ ⟨[[0], [0], [0]], [0, 0, 0], false⟩ Key.r (by decide)
      (by decide)).2.2.1⟩

/-- C9 counterexample: on a concrete tick the loop pushes six formatted
strings to overlay slots (two observation halves, reward, cumulative
reward, done, selected name), not five. -/
theorem c9_six_writes_not_five :
    List.countP Event.isWrite
      (tick (⟨0, 2, false, false, ⟨0, 0, 0, 0⟩, ActionValue.disc 0, [0, 0],
        0⟩ : IState) ⟨[[1, 2], [3, 4]], [0, 0], false⟩).2 = 6 ∧
    List.countP Event.isWrite
      (tick (⟨0, 2, false, false, ⟨0, 0, 0, 0⟩, ActionValue.disc 0, [0, 0],
        0⟩ : IState) ⟨[[1, 2], [3, 4]], [0, 0], false⟩).2 ≠ 5 := by
  decide

/-- C9 amended: on every tick the control loop pushes exactly SIX
formatted strings to the designated overlay slots. -/
theorem c9_overlay_writes (s : IState) (res : StepResult) :
    List.countP Event.isWrite (tick s res).2 = 6 := by
  cases hR : s.reset <;>
    simp [tick, hR, Event.isWrite, List.countP_cons, List.countP_append]

/-- C10: the release handler clears the reset flag unconditionally on any
R release; concretely, after a tick whose step reports done (arming the
reset), an R release delivered before the next tick's flag check cancels
it: the next tick performs no environment reset and the cumulative rewards
are not zeroed — they keep accumulating ([1,1] then [3,3]) despite the
episode having terminated. -/
theorem c10_r_release_cancels_done_reset :
    (∀ s : IState, (key_release s Key.r).reset = false) ∧
    (tick (⟨0, 2, false, false, ⟨0, 0, 0, 0⟩, ActionValue.disc 0, [0, 0],
        0⟩ : IState) ⟨[[0], [0]], [1, 1], true⟩).1.reset = true ∧
    (key_release (tick (⟨0, 2, false, false, ⟨0, 0, 0, 0⟩,
        ActionValue.disc 0, [0, 0], 0⟩ : IState)
      ⟨[[0], [0]], [1, 1], true⟩).1 Key.r).reset = false ∧
    Event.resetEnv ∉ (tick (key_release (tick (⟨0, 2, false, false,
        ⟨0, 0, 0, 0⟩, ActionValue.disc 0, [0, 0], 0⟩ : IState)
      ⟨[[0], [0]], [1, 1], true⟩).1 Key.r)
      ⟨[[0], [0]], [2, 2], false⟩).2 ∧
    (tick (key_release (tick (⟨0, 2, false, false, ⟨0, 0, 0, 0⟩,
        ActionValue.disc 0, [0, 0], 0⟩ : IState)
      ⟨[[0], [0]], [1, 1], true⟩).1 Key.r)
      ⟨[[0], [0]], [2, 2], false⟩).1.total_rew = [3, 3] := by
  refine ⟨?_, by decide, by decide, by decide, by decide⟩
  intro s
  obtain ⟨i, n, cont, rst, ks, u, tr, ti⟩ := s
  cases cont <;> by_cases h1 : ks.total = 1 <;> simp [key_release, h1]
